import Mathlib

/-!
Shallow embedding of the reconciliation core of the pingora-gateway-controller
repository (Go), together with theorems settling the frozen claims about it.

Conventions of the embedding:
* Go strings are Lean `String`s where only equality matters; hostnames, which
  are inspected character by character, are `List Char`.
* `strings.ToLower` is modelled per character by `Char.toLower` (hostnames are
  DNS names, effectively ASCII).
* Go `nil`-able pointers become `Option`; fallible functions return `Except`.
* Kubernetes client reads (`Get`/`List`) are modelled by explicit environment
  functions passed to the embedded code; `none` stands for any `Get` error.
* External library calls (apimachinery's `LabelSelectorAsSelector`) are
  modelled by carrying their result inside the data: a `LabelSelector` is
  represented by the outcome of that conversion.
-/

namespace PingoraGateway

/-! ## Hostname matcher (internal/routebinding, `HostnamesIntersect`) -/

/-- A hostname, character by character (Go `string` indexed by bytes). -/
abbrev Hostname := List Char

/-- Go `strings.ToLower`, per character. -/
def toLowerH (h : Hostname) : Hostname := h.map Char.toLower

/-- Go `strings.HasPrefix(s, pre)`. -/
def hasPrefixH (s pre : Hostname) : Bool := decide (pre <+: s)

/-- Go `strings.HasSuffix(s, suf)`. -/
def hasSuffixH (s suf : Hostname) : Bool := decide (suf <:+ s)

/-- The two-character wildcard marker `*.` that Go tests with
`strings.HasPrefix(h, "*.")`. -/
def wildcardMarker : Hostname := ['*', '.']

/-- Whether a (lowercased) hostname is of the wildcard form `*.suffix`. -/
def isWildcardH (h : Hostname) : Bool := hasPrefixH h wildcardMarker

/-- Embeds `matchesWildcard` from the source: `wildcardHost` must start with `*.`;
`suffix := wildcardHost[1:]`; the specific host must end with that suffix and
must not equal the apex `suffix[1:]`. -/
def matchesWildcard (wildcardHost specificHost : Hostname) : Bool :=
  let suffix := wildcardHost.drop 1
  if ¬ hasSuffixH specificHost suffix then false
  else if specificHost = suffix.drop 1 then false
  else true

/-- Embeds `hostnameMatches` from the source: lowercase both sides, check equality,
then the wildcard cases. -/
def hostnameMatches (listenerHost routeHost : Hostname) : Bool :=
  let l := toLowerH listenerHost
  let r := toLowerH routeHost
  if l = r then true
  else if isWildcardH l && isWildcardH r then decide (l.drop 1 = r.drop 1)
  else if isWildcardH l then matchesWildcard l r
  else if isWildcardH r then matchesWildcard r l
  else false

/-- Embeds `HostnamesIntersect` from the source: an absent or empty listener hostname
matches everything, an empty route hostname list matches everything, otherwise
some route hostname must match. -/
def HostnamesIntersect (listenerHostname : Option Hostname)
    (routeHostnames : List Hostname) : Bool :=
  match listenerHostname with
  | none => true
  | some h =>
    if h = [] then true
    else if routeHostnames.length = 0 then true
    else routeHostnames.any (fun routeHost => hostnameMatches h routeHost)

/-- Unfolding equation for `hostnameMatches`, stated without `let`s. -/
theorem hostnameMatches_def (a b : Hostname) :
    hostnameMatches a b =
      (if toLowerH a = toLowerH b then true
       else if isWildcardH (toLowerH a) && isWildcardH (toLowerH b) then
         decide ((toLowerH a).drop 1 = (toLowerH b).drop 1)
       else if isWildcardH (toLowerH a) then matchesWildcard (toLowerH a) (toLowerH b)
       else if isWildcardH (toLowerH b) then matchesWildcard (toLowerH b) (toLowerH a)
       else false) := rfl

theorem toLowerH_append (x y : Hostname) :
    toLowerH (x ++ y) = toLowerH x ++ toLowerH y := by
  simp [toLowerH]

theorem toLowerH_wildcardMarker_append (x : Hostname) :
    toLowerH (wildcardMarker ++ x) = wildcardMarker ++ toLowerH x := by
  have h : toLowerH wildcardMarker = wildcardMarker := by decide
  rw [toLowerH_append, h]

theorem isWildcardH_marker_append (x : Hostname) :
    isWildcardH (wildcardMarker ++ x) = true := by
  simp [isWildcardH, hasPrefixH, wildcardMarker]

theorem not_suffix_dot_self (x : Hostname) : ¬ ('.' :: x <:+ x) := by
  intro h
  have := h.length_le
  simp at this

/-- Claim C7: for a listener hostname of the wildcard form `*.X` and an exact
route hostname `Y`, `hostnameMatches` returns true iff, after case folding,
`Y` ends with `.X` and `Y ≠ X`; in particular the apex `X` never matches; and
a hostname whose `*` is not the leftmost label is not a wildcard, so the match
falls back to exact comparison. -/
theorem wildcard_listener_exact_route_match (X Y : Hostname)
    (hY : isWildcardH (toLowerH Y) = false) :
    (hostnameMatches (wildcardMarker ++ X) Y = true ↔
      (hasSuffixH (toLowerH Y) ('.' :: toLowerH X) = true ∧ toLowerH Y ≠ toLowerH X))
    ∧ (toLowerH Y = toLowerH X → hostnameMatches (wildcardMarker ++ X) Y = false)
    ∧ (∀ l r : Hostname, isWildcardH (toLowerH l) = false →
        isWildcardH (toLowerH r) = false →
        hostnameMatches l r = decide (toLowerH l = toLowerH r)) := by
  have hx : toLowerH (wildcardMarker ++ X) = '*' :: '.' :: toLowerH X := by
    rw [toLowerH_wildcardMarker_append]; rfl
  have hlw : isWildcardH ('*' :: '.' :: toLowerH X) = true := isWildcardH_marker_append _
  have hne : ¬ ('*' :: '.' :: toLowerH X = toLowerH Y) := by
    intro h
    rw [h, hY] at hlw
    exact Bool.false_ne_true hlw
  have hmain : hostnameMatches (wildcardMarker ++ X) Y =
      matchesWildcard ('*' :: '.' :: toLowerH X) (toLowerH Y) := by
    rw [hostnameMatches_def, hx, if_neg hne, hlw, hY]
    simp
  have hmw : matchesWildcard ('*' :: '.' :: toLowerH X) (toLowerH Y) = true ↔
      (hasSuffixH (toLowerH Y) ('.' :: toLowerH X) = true ∧ toLowerH Y ≠ toLowerH X) := by
    unfold matchesWildcard
    by_cases hsuf : hasSuffixH (toLowerH Y) (('*' :: '.' :: toLowerH X).drop 1) = true
    · by_cases happ : toLowerH Y = (('*' :: '.' :: toLowerH X).drop 1).drop 1
      · simp_all
      · simp_all
    · simp_all
  refine ⟨by rw [hmain]; exact hmw, ?_, ?_⟩
  · intro hap
    cases hb : hostnameMatches (wildcardMarker ++ X) Y with
    | false => rfl
    | true =>
      rw [hmain] at hb
      exact absurd hap (hmw.mp hb).2
  · intro l r hl hr
    rw [hostnameMatches_def]
    by_cases heq : toLowerH l = toLowerH r
    · simp [heq]
    · simp [heq, hl, hr]

/-- Claim C7 witness: `*.example.com` against `bar.foo.example.com` (matches,
multi-level) and against the apex `example.com` (does not match). -/
theorem wildcard_listener_exact_route_match_witness :
    (hostnameMatches (wildcardMarker ++ ['c', 'o', 'm']) ['a', '.', 'c', 'o', 'm'] = true ↔
      (hasSuffixH (toLowerH ['a', '.', 'c', 'o', 'm']) ('.' :: toLowerH ['c', 'o', 'm']) = true ∧
        toLowerH ['a', '.', 'c', 'o', 'm'] ≠ toLowerH ['c', 'o', 'm'])) ∧
    (toLowerH ['c', 'o', 'm'] = toLowerH ['c', 'o', 'm'] →
      hostnameMatches (wildcardMarker ++ ['c', 'o', 'm']) ['c', 'o', 'm'] = false) := by
  refine ⟨(wildcard_listener_exact_route_match ['c', 'o', 'm'] ['a', '.', 'c', 'o', 'm']
    (by decide)).1, (wildcard_listener_exact_route_match ['c', 'o', 'm'] ['c', 'o', 'm']
    (by decide)).2.1⟩

/-- Claim C8: the pairwise hostname matcher is symmetric in its two arguments
and deterministic (evaluating it twice on the same input yields the same
answer). -/
theorem hostnameMatches_symm_idempotent (a b : Hostname) :
    hostnameMatches a b = hostnameMatches b a ∧
    hostnameMatches a b = hostnameMatches a b := by
  refine ⟨?_, rfl⟩
  rw [hostnameMatches_def, hostnameMatches_def]
  by_cases h1 : toLowerH a = toLowerH b
  · simp [h1]
  · have h2 : ¬ (toLowerH b = toLowerH a) := fun h => h1 h.symm
    rw [if_neg h1, if_neg h2]
    cases hwa : isWildcardH (toLowerH a) <;> cases hwb : isWildcardH (toLowerH b) <;>
      simp [eq_comm]

/-! ## Namespace gate (internal/routebinding, `IsNamespaceAllowed`) -/

/-- A Kubernetes label set. -/
abbrev LabelSet := List (String × String)

/-- The cluster's namespaces as seen through the client cache: name to labels;
`none` stands for any `Get` error (typically not-found). -/
abbrev NsEnv := String → Option LabelSet

/-- Models apimachinery's `metav1.LabelSelector` by the outcome of the external
`LabelSelectorAsSelector` conversion the source delegates to: either an error
(invalid selector) or a matching predicate on label sets. -/
structure LabelSelector where
  asSelector : Except String (LabelSet → Bool)

/-- Embeds `gatewayv1.RouteNamespaces`: optional `From` (a Go string type) and an
optional label selector. -/
structure RouteNamespaces where
  fromNs : Option String
  selector : Option LabelSelector

/-- Embeds `gatewayv1.RouteGroupKind`: optional group and a kind. -/
structure RouteGroupKind where
  group : Option String
  kind : String

/-- Embeds `gatewayv1.AllowedRoutes`: optional namespaces policy and a kinds list. -/
structure AllowedRoutes where
  namespaces : Option RouteNamespaces
  kinds : List RouteGroupKind

/-- Embeds `getNamespaceFrom` from the source: the `From` field, defaulting to `Same`
through every `nil` layer. -/
def getNamespaceFrom (allowedRoutes : Option AllowedRoutes) : String :=
  match allowedRoutes with
  | none => "Same"
  | some ar =>
    match ar.namespaces with
    | none => "Same"
    | some ns =>
      match ns.fromNs with
      | none => "Same"
      | some f => f

/-- The selector reached by the source's `allowedRoutes.Namespaces.Selector`
access (collapsing the `nil` layers that are impossible at the call site). -/
def getSelector (allowedRoutes : Option AllowedRoutes) : Option LabelSelector :=
  match allowedRoutes with
  | none => none
  | some ar =>
    match ar.namespaces with
    | none => none
    | some ns => ns.selector

/-- Embeds `namespaceMatchesSelector` from the source: nil selector denies; an invalid
selector is a hard error; a namespace that cannot be fetched denies; otherwise
the selector is matched against the namespace labels. -/
def namespaceMatchesSelector (env : NsEnv) (allowedRoutes : Option AllowedRoutes)
    (routeNamespace : String) : Except String Bool :=
  match getSelector allowedRoutes with
  | none => .ok false
  | some sel =>
    match sel.asSelector with
    | .error e => .error ("invalid label selector: " ++ e)
    | .ok matcher =>
      match env routeNamespace with
      | none => .ok false
      | some labels => .ok (matcher labels)

/-- Embeds `IsNamespaceAllowed` from the source: switch on the effective `From`. -/
def IsNamespaceAllowed (env : NsEnv) (allowedRoutes : Option AllowedRoutes)
    (gatewayNamespace routeNamespace : String) : Except String Bool :=
  let fromValue := getNamespaceFrom allowedRoutes
  if fromValue = "Same" then .ok (gatewayNamespace == routeNamespace)
  else if fromValue = "All" then .ok true
  else if fromValue = "Selector" then
    namespaceMatchesSelector env allowedRoutes routeNamespace
  else if fromValue = "None" then .ok false
  else .ok (gatewayNamespace == routeNamespace)

/-! ## Kind gate (internal/routebinding, `IsRouteKindAllowed`) -/

/-- The Gateway API group name. -/
def gatewayAPIGroup : String := "gateway.networking.k8s.io"

/-- Embeds `getDefaultKindsForProtocol` from the source. -/
def getDefaultKindsForProtocol (protocol : String) : List RouteGroupKind :=
  if protocol = "HTTP" ∨ protocol = "HTTPS" then
    [⟨some gatewayAPIGroup, "HTTPRoute"⟩, ⟨some gatewayAPIGroup, "GRPCRoute"⟩]
  else if protocol = "TLS" then [⟨some gatewayAPIGroup, "TLSRoute"⟩]
  else if protocol = "TCP" then [⟨some gatewayAPIGroup, "TCPRoute"⟩]
  else if protocol = "UDP" then [⟨some gatewayAPIGroup, "UDPRoute"⟩]
  else [⟨some gatewayAPIGroup, "HTTPRoute"⟩, ⟨some gatewayAPIGroup, "GRPCRoute"⟩]

/-- Embeds `getAllowedKinds` from the source: a non-empty explicit kinds list is taken
verbatim, otherwise protocol defaults. -/
def getAllowedKinds (allowedRoutes : Option AllowedRoutes)
    (protocol : String) : List RouteGroupKind :=
  match allowedRoutes with
  | some ar => if ar.kinds.length > 0 then ar.kinds else getDefaultKindsForProtocol protocol
  | none => getDefaultKindsForProtocol protocol

/-- Embeds `kindMatches` from the source: kind must match and the (defaulted) group
must be the Gateway API group. -/
def kindMatches (allowed : RouteGroupKind) (routeKind : String) : Bool :=
  if allowed.kind ≠ routeKind then false
  else
    let allowedGroup :=
      match allowed.group with
      | some g => if g ≠ "" then g else gatewayAPIGroup
      | none => gatewayAPIGroup
    allowedGroup == gatewayAPIGroup

/-- Embeds `IsRouteKindAllowed` from the source. -/
def IsRouteKindAllowed (allowedRoutes : Option AllowedRoutes) (protocol : String)
    (routeKind : String) : Bool :=
  (getAllowedKinds allowedRoutes protocol).any (fun allowed => kindMatches allowed routeKind)

/-! ## Binding evaluator (internal/routebinding, `ValidateBinding`) -/

/-- Embeds `gatewayv1.Listener`: name, protocol, optional hostname, allowed routes. -/
structure Listener where
  name : String
  protocol : String
  hostname : Option Hostname
  allowedRoutes : Option AllowedRoutes

/-- Embeds `gatewayv1.Gateway`, the fields this code path reads. -/
structure Gateway where
  name : String
  nspace : String
  gatewayClassName : String
  listeners : List Listener

/-- Embeds `routebinding.RouteInfo`. -/
structure RouteInfo where
  name : String
  nspace : String
  hostnames : List Hostname
  kind : String
  sectionName : Option String

/-- Embeds `routebinding.BindingResult`. -/
structure BindingResult where
  accepted : Bool
  reason : String
  message : String
  matchedListeners : List String
deriving DecidableEq

def reasonAccepted : String := "Accepted"

def reasonNoMatchingListenerHostname : String := "NoMatchingListenerHostname"

def reasonNotAllowedByListeners : String := "NotAllowedByListeners"

def reasonNoMatchingParent : String := "NoMatchingParent"

def reasonPending : String := "Pending"

/-- Embeds `listenerAcceptsRoute` from the source: hostname intersection, then the
namespace gate, then the kind gate, in that order. -/
def listenerAcceptsRoute (env : NsEnv) (listener : Listener)
    (gatewayNamespace : String) (route : RouteInfo) : Except String String :=
  if HostnamesIntersect listener.hostname route.hostnames = false then
    .ok reasonNoMatchingListenerHostname
  else
    match IsNamespaceAllowed env listener.allowedRoutes gatewayNamespace route.nspace with
    | .error e => .error e
    | .ok allowed =>
      if allowed = false then .ok reasonNotAllowedByListeners
      else if IsRouteKindAllowed listener.allowedRoutes listener.protocol route.kind = false then
        .ok reasonNotAllowedByListeners
      else .ok reasonAccepted

/-- The section-name filter of `findMatchingListeners`: skip listeners whose
name differs from the route's section name. -/
def skipListener (route : RouteInfo) (listener : Listener) : Bool :=
  match route.sectionName with
  | some sn => sn != listener.name
  | none => false

/-- The listener loop of `findMatchingListeners`, carrying the matched-listener
accumulator and the last rejection reason. -/
def walkListeners (env : NsEnv) (gatewayNamespace : String) (route : RouteInfo) :
    List Listener → List String → String → Except String (List String × String)
  | [], matched, lastReason => .ok (matched, lastReason)
  | listener :: rest, matched, lastReason =>
    if skipListener route listener then
      walkListeners env gatewayNamespace route rest matched lastReason
    else
      match listenerAcceptsRoute env listener gatewayNamespace route with
      | .error e => .error e
      | .ok reason =>
        if reason = reasonAccepted then
          walkListeners env gatewayNamespace route rest (matched ++ [listener.name]) lastReason
        else
          walkListeners env gatewayNamespace route rest matched reason

/-- Embeds `findMatchingListeners` from the source. -/
def findMatchingListeners (env : NsEnv) (gateway : Gateway) (route : RouteInfo) :
    Except String (List String × String) :=
  if gateway.listeners.length = 0 then .ok ([], reasonNoMatchingParent)
  else
    match walkListeners env gateway.nspace route gateway.listeners [] "" with
    | .error e => .error e
    | .ok (matched, lastReason) =>
      if matched.length = 0 then
        if route.sectionName ≠ none then .ok ([], reasonNoMatchingParent)
        else if lastReason = "" then .ok ([], reasonNoMatchingParent)
        else .ok ([], lastReason)
      else .ok (matched, "")

/-- Embeds `getReasonMessage` from the source. -/
def getReasonMessage (reason : String) : String :=
  if reason = reasonNoMatchingListenerHostname then
    "No listener hostname matches route hostnames"
  else if reason = reasonNotAllowedByListeners then
    "Route not allowed by listener allowedRoutes policy"
  else if reason = reasonNoMatchingParent then "No matching listener found"
  else "Route not accepted"

/-- Embeds `ValidateBinding` from the source. -/
def ValidateBinding (env : NsEnv) (gateway : Gateway) (route : RouteInfo) :
    Except String BindingResult :=
  match findMatchingListeners env gateway route with
  | .error e => .error e
  | .ok (matchedListeners, rejectionReason) =>
    if matchedListeners.length = 0 then
      .ok ⟨false, rejectionReason, getReasonMessage rejectionReason, []⟩
    else .ok ⟨true, reasonAccepted, "Route accepted", matchedListeners⟩

/-- Claim C9: the namespace gate returns same-namespace equality when
`allowedRoutes`, its `namespaces` field, or its `from` field is nil; true for
`All`; false for `None` even in the same namespace; for `Selector` the result
of matching the route namespace's labels, where an unfetchable namespace is a
denial and an invalid selector is a hard error. -/
theorem isNamespaceAllowed_cases (env : NsEnv) (kinds : List RouteGroupKind)
    (sel : Option LabelSelector) (matcher : LabelSet → Bool) (err : String)
    (gatewayNamespace routeNamespace : String) :
    IsNamespaceAllowed env none gatewayNamespace routeNamespace =
      .ok (gatewayNamespace == routeNamespace)
    ∧ IsNamespaceAllowed env (some ⟨none, kinds⟩) gatewayNamespace routeNamespace =
      .ok (gatewayNamespace == routeNamespace)
    ∧ IsNamespaceAllowed env (some ⟨some ⟨none, sel⟩, kinds⟩) gatewayNamespace routeNamespace =
      .ok (gatewayNamespace == routeNamespace)
    ∧ IsNamespaceAllowed env (some ⟨some ⟨some "All", sel⟩, kinds⟩)
        gatewayNamespace routeNamespace = .ok true
    ∧ IsNamespaceAllowed env (some ⟨some ⟨some "None", sel⟩, kinds⟩)
        gatewayNamespace routeNamespace = .ok false
    ∧ IsNamespaceAllowed env (some ⟨some ⟨some "Selector", some ⟨.ok matcher⟩⟩, kinds⟩)
        gatewayNamespace routeNamespace =
      (match env routeNamespace with
       | none => .ok false
       | some labels => .ok (matcher labels))
    ∧ IsNamespaceAllowed env (some ⟨some ⟨some "Selector", some ⟨.error err⟩⟩, kinds⟩)
        gatewayNamespace routeNamespace =
      .error ("invalid label selector: " ++ err) := by
  refine ⟨rfl, rfl, rfl, rfl, rfl, rfl, rfl⟩

/-- Whether a listener survives the section-name filter and passes all three
gates of `listenerAcceptsRoute`. -/
def passesListener (env : NsEnv) (gatewayNamespace : String) (route : RouteInfo)
    (listener : Listener) : Bool :=
  !(skipListener route listener) &&
    (match listenerAcceptsRoute env listener gatewayNamespace route with
     | .ok r => r == reasonAccepted
     | .error _ => false)

/-- The rejection reasons produced by the evaluated-and-rejected listeners, in
declaration order. -/
def rejectionReasons (env : NsEnv) (gatewayNamespace : String) (route : RouteInfo)
    (listeners : List Listener) : List String :=
  listeners.filterMap (fun listener =>
    if skipListener route listener then none
    else
      match listenerAcceptsRoute env listener gatewayNamespace route with
      | .ok r => if r = reasonAccepted then none else some r
      | .error _ => none)

/-- The names of the listeners the walk accepts, in declaration order. -/
def matchedListenerNames (env : NsEnv) (gatewayNamespace : String) (route : RouteInfo)
    (listeners : List Listener) : List String :=
  (listeners.filter (fun listener => passesListener env gatewayNamespace route listener)).map
    (fun listener => listener.name)

theorem walkListeners_spec (env : NsEnv) (gwNs : String) (route : RouteInfo)
    (ls : List Listener) :
    ∀ (matched : List String) (r0 : String),
    (∀ l ∈ ls, ∃ r, listenerAcceptsRoute env l gwNs route = .ok r) →
    walkListeners env gwNs route ls matched r0 =
      .ok (matched ++ matchedListenerNames env gwNs route ls,
           (rejectionReasons env gwNs route ls).getLastD r0) := by
  induction ls with
  | nil =>
    intro matched r0 _
    simp [walkListeners, matchedListenerNames, rejectionReasons]
  | cons l ls ih =>
    intro matched r0 h
    have hl := h l (by simp)
    obtain ⟨r, hr⟩ := hl
    have hrest : ∀ l' ∈ ls, ∃ r', listenerAcceptsRoute env l' gwNs route = .ok r' := by
      intro l' hl'
      exact h l' (by simp [hl'])
    by_cases hskip : skipListener route l = true
    · rw [walkListeners, if_pos hskip, ih matched r0 hrest]
      have h1 : matchedListenerNames env gwNs route (l :: ls) =
          matchedListenerNames env gwNs route ls := by
        simp [matchedListenerNames, List.filter_cons, passesListener, hskip]
      have h2 : rejectionReasons env gwNs route (l :: ls) =
          rejectionReasons env gwNs route ls := by
        simp [rejectionReasons, List.filterMap_cons, hskip]
      rw [h1, h2]
    · have hskip' : skipListener route l = false := by
        cases hs : skipListener route l
        · rfl
        · exact absurd hs hskip
      by_cases hacc : r = reasonAccepted
      · subst hacc
        rw [walkListeners, if_neg hskip, hr]
        simp only [if_pos rfl]
        rw [ih (matched ++ [l.name]) r0 hrest]
        have h1 : matchedListenerNames env gwNs route (l :: ls) =
            l.name :: matchedListenerNames env gwNs route ls := by
          simp [matchedListenerNames, List.filter_cons, passesListener, hskip', hr]
        have h2 : rejectionReasons env gwNs route (l :: ls) =
            rejectionReasons env gwNs route ls := by
          simp [rejectionReasons, List.filterMap_cons, hskip', hr]
        rw [h1, h2, List.append_assoc]
        rfl
      · rw [walkListeners, if_neg hskip, hr]
        simp only [if_neg hacc]
        rw [ih matched r hrest]
        have h1 : matchedListenerNames env gwNs route (l :: ls) =
            matchedListenerNames env gwNs route ls := by
          simp [matchedListenerNames, List.filter_cons, passesListener, hskip', hr, hacc]
        have h2 : rejectionReasons env gwNs route (l :: ls) =
            r :: rejectionReasons env gwNs route ls := by
          simp [rejectionReasons, List.filterMap_cons, hskip', hr, hacc]
        rw [h1, h2, List.getLastD_cons]

theorem listenerAcceptsRoute_reason_values (env : NsEnv) (l : Listener)
    (gwNs : String) (route : RouteInfo) (r : String)
    (h : listenerAcceptsRoute env l gwNs route = .ok r) :
    r = reasonAccepted ∨ r = reasonNoMatchingListenerHostname ∨
      r = reasonNotAllowedByListeners := by
  unfold listenerAcceptsRoute at h
  split at h
  · simp_all
  · split at h
    · simp_all
    · split at h
      · simp_all
      · split at h <;> simp_all

theorem getLastD_congr (xs : List String) (a b : String) (h : xs ≠ []) :
    xs.getLastD a = xs.getLastD b := by
  cases xs with
  | nil => exact absurd rfl h
  | cons x xs => rw [List.getLastD_cons, List.getLastD_cons]

theorem getLastD_mem (xs : List String) (a : String) (h : xs ≠ []) :
    xs.getLastD a ∈ xs := by
  induction xs generalizing a with
  | nil => exact absurd rfl h
  | cons x xs ih =>
    rw [List.getLastD_cons]
    cases xs with
    | nil => simp [List.getLastD]
    | cons y ys => exact List.mem_cons_of_mem x (ih x (by simp))

theorem mem_rejectionReasons (env : NsEnv) (gwNs : String) (route : RouteInfo)
    (ls : List Listener) (x : String)
    (hx : x ∈ rejectionReasons env gwNs route ls) :
    x = reasonNoMatchingListenerHostname ∨ x = reasonNotAllowedByListeners := by
  unfold rejectionReasons at hx
  rw [List.mem_filterMap] at hx
  obtain ⟨l, _, hl⟩ := hx
  by_cases hskip : skipListener route l = true
  · rw [if_pos hskip] at hl
    exact absurd hl (by simp)
  · rw [if_neg hskip] at hl
    cases hr : listenerAcceptsRoute env l gwNs route with
    | error e => rw [hr] at hl; exact absurd hl (by simp)
    | ok r =>
      rw [hr] at hl
      by_cases hacc : r = reasonAccepted
      · simp [hacc] at hl
      · have hrx : r = x := by
          simp [hacc] at hl
          exact hl
        subst hrx
        rcases listenerAcceptsRoute_reason_values env l gwNs route r hr with h1 | h1 | h1
        · exact absurd h1 hacc
        · exact Or.inl h1
        · exact Or.inr h1

theorem validateBinding_of_rejected (env : NsEnv) (gateway : Gateway) (route : RouteInfo)
    (rr : String)
    (hf : findMatchingListeners env gateway route = .ok ([], rr)) :
    ValidateBinding env gateway route = .ok ⟨false, rr, getReasonMessage rr, []⟩ := by
  unfold ValidateBinding
  rw [hf]
  simp

theorem validateBinding_of_matched (env : NsEnv) (gateway : Gateway) (route : RouteInfo)
    (names : List String)
    (hf : findMatchingListeners env gateway route = .ok (names, ""))
    (hne : ¬ names.length = 0) :
    ValidateBinding env gateway route =
      .ok ⟨true, reasonAccepted, "Route accepted", names⟩ := by
  unfold ValidateBinding
  rw [hf]
  simp only [if_neg hne]

theorem findMatchingListeners_spec (env : NsEnv) (gateway : Gateway) (route : RouteInfo)
    (h : ∀ l ∈ gateway.listeners, ∃ r,
      listenerAcceptsRoute env l gateway.nspace route = .ok r)
    (hne : gateway.listeners ≠ []) :
    findMatchingListeners env gateway route =
      (if (matchedListenerNames env gateway.nspace route gateway.listeners).length = 0 then
         if route.sectionName ≠ none then .ok ([], reasonNoMatchingParent)
         else if (rejectionReasons env gateway.nspace route gateway.listeners).getLastD "" = ""
           then .ok ([], reasonNoMatchingParent)
         else .ok ([], (rejectionReasons env gateway.nspace route gateway.listeners).getLastD "")
       else .ok (matchedListenerNames env gateway.nspace route gateway.listeners, "")) := by
  unfold findMatchingListeners
  rw [if_neg (by simpa using hne)]
  rw [walkListeners_spec env gateway.nspace route gateway.listeners [] "" h]
  simp only [List.nil_append]

/-- Claim C6: the binding evaluator is `Accepted` with message "Route accepted"
iff some listener survives the section filter and passes all three gates; a
Gateway with zero listeners yields `NoMatchingParent`; a set section name with
no matching listener yields `NoMatchingParent`; otherwise, with no section name
and no match, the reason is that of the last listener evaluated and rejected in
declaration order. -/
theorem validateBinding_outcomes (env : NsEnv) (gateway : Gateway) (route : RouteInfo)
    (h : ∀ l ∈ gateway.listeners, ∃ r,
      listenerAcceptsRoute env l gateway.nspace route = .ok r) :
    ((∃ res, ValidateBinding env gateway route = .ok res ∧ res.accepted = true ∧
        res.message = "Route accepted") ↔
      (∃ l ∈ gateway.listeners, passesListener env gateway.nspace route l = true))
    ∧ (gateway.listeners = [] →
        ValidateBinding env gateway route =
          .ok ⟨false, reasonNoMatchingParent, "No matching listener found", []⟩)
    ∧ (route.sectionName ≠ none →
        (∀ l ∈ gateway.listeners, passesListener env gateway.nspace route l = false) →
        ∃ res, ValidateBinding env gateway route = .ok res ∧ res.accepted = false ∧
          res.reason = reasonNoMatchingParent)
    ∧ (route.sectionName = none → gateway.listeners ≠ [] →
        (∀ l ∈ gateway.listeners, passesListener env gateway.nspace route l = false) →
        ∃ res, ValidateBinding env gateway route = .ok res ∧ res.accepted = false ∧
          res.reason =
            (rejectionReasons env gateway.nspace route gateway.listeners).getLastD
              reasonNoMatchingParent) := by
  by_cases hnil : gateway.listeners = []
  · have hfml : findMatchingListeners env gateway route = .ok ([], reasonNoMatchingParent) := by
      unfold findMatchingListeners
      rw [if_pos (by simp [hnil])]
    have hvb : ValidateBinding env gateway route =
        .ok ⟨false, reasonNoMatchingParent, "No matching listener found", []⟩ := by
      unfold ValidateBinding
      rw [hfml]
      rfl
    refine ⟨?_, fun _ => hvb, fun _ _ => ⟨_, hvb, rfl, rfl⟩, fun _ hne _ => absurd hnil hne⟩
    constructor
    · rintro ⟨res, hres, hacc, -⟩
      rw [hvb] at hres
      cases hres
      exact absurd hacc (by simp)
    · rintro ⟨l, hl, -⟩
      rw [hnil] at hl
      exact absurd hl (by simp)
  · have hspec := findMatchingListeners_spec env gateway route h hnil
    by_cases hmn : (matchedListenerNames env gateway.nspace route gateway.listeners).length = 0
    · have hmn' : matchedListenerNames env gateway.nspace route gateway.listeners = [] :=
        List.eq_nil_of_length_eq_zero hmn
      have hnopass : ∀ l ∈ gateway.listeners,
          ¬ passesListener env gateway.nspace route l = true := by
        intro l hl hp
        have : l ∈ gateway.listeners.filter
            (fun listener => passesListener env gateway.nspace route listener) :=
          List.mem_filter.mpr ⟨hl, hp⟩
        rw [show gateway.listeners.filter
            (fun listener => passesListener env gateway.nspace route listener) = [] by
          have := hmn'
          unfold matchedListenerNames at this
          exact List.map_eq_nil_iff.mp this] at this
        exact absurd this (by simp)
      refine ⟨?_, fun he => absurd he hnil, ?_, ?_⟩
      · constructor
        · rintro ⟨res, hres, hacc, -⟩
          have hfr : ∃ rr, findMatchingListeners env gateway route = .ok ([], rr) := by
            rw [hspec, if_pos hmn]
            by_cases hsn : route.sectionName ≠ none
            · rw [if_pos hsn]; exact ⟨_, rfl⟩
            · rw [if_neg hsn]
              by_cases hlr : (rejectionReasons env gateway.nspace route
                  gateway.listeners).getLastD "" = ""
              · rw [if_pos hlr]; exact ⟨_, rfl⟩
              · rw [if_neg hlr]; exact ⟨_, rfl⟩
          obtain ⟨rr, hfr⟩ := hfr
          rw [validateBinding_of_rejected env gateway route rr hfr] at hres
          cases hres
          exact absurd hacc (by simp)
        · rintro ⟨l, hl, hp⟩
          exact absurd hp (hnopass l hl)
      · intro hsn _
        have hf : findMatchingListeners env gateway route = .ok ([], reasonNoMatchingParent) := by
          rw [hspec, if_pos hmn, if_pos hsn]
        exact ⟨_, validateBinding_of_rejected env gateway route _ hf, rfl, rfl⟩
      · intro hsn hne _
        have hreasons_ne : rejectionReasons env gateway.nspace route gateway.listeners ≠ [] := by
          cases hls : gateway.listeners with
          | nil => exact absurd hls hnil
          | cons l ls =>
            have hl : l ∈ gateway.listeners := by rw [hls]; simp
            obtain ⟨r, hr⟩ := h l hl
            have hskip : skipListener route l = false := by
              unfold skipListener
              rw [hsn]
            have hnp := hnopass l hl
            have hrne : ¬ r = reasonAccepted := by
              intro hra
              apply hnp
              unfold passesListener
              rw [hskip, hr]
              simp [hra]
            simp [rejectionReasons, List.filterMap_cons, hskip, hr, hrne]
        have hlast_mem := getLastD_mem _ "" hreasons_ne
        have hlast_ne : (rejectionReasons env gateway.nspace route gateway.listeners).getLastD ""
            ≠ "" := by
          rcases mem_rejectionReasons env gateway.nspace route gateway.listeners _ hlast_mem
            with hv | hv <;> rw [hv] <;> decide
        have hf : findMatchingListeners env gateway route =
            .ok ([], (rejectionReasons env gateway.nspace route gateway.listeners).getLastD "") := by
          rw [hspec, if_pos hmn, if_neg (by simp [hsn]), if_neg hlast_ne]
        refine ⟨_, validateBinding_of_rejected env gateway route _ hf, rfl, ?_⟩
        exact getLastD_congr _ "" reasonNoMatchingParent hreasons_ne
    · have hf : findMatchingListeners env gateway route =
          .ok (matchedListenerNames env gateway.nspace route gateway.listeners, "") := by
        rw [hspec, if_neg hmn]
      have hvb := validateBinding_of_matched env gateway route _ hf hmn
      have hex : ∃ l ∈ gateway.listeners, passesListener env gateway.nspace route l = true := by
        have hmn' : gateway.listeners.filter
            (fun listener => passesListener env gateway.nspace route listener) ≠ [] := by
          intro hq
          apply hmn
          unfold matchedListenerNames
          rw [hq]
          rfl
        cases hf : gateway.listeners.filter
            (fun listener => passesListener env gateway.nspace route listener) with
        | nil => exact absurd hf hmn'
        | cons l ls =>
          have : l ∈ gateway.listeners.filter
              (fun listener => passesListener env gateway.nspace route listener) := by
            rw [hf]; simp
          have hlm := List.mem_filter.mp this
          exact ⟨l, hlm.1, hlm.2⟩
      refine ⟨⟨fun _ => hex, fun _ => ⟨_, hvb, rfl, rfl⟩⟩, fun he => absurd he hnil, ?_, ?_⟩
      · intro _ hall
        obtain ⟨l, hl, hp⟩ := hex
        rw [hall l hl] at hp
        exact absurd hp (by simp)
      · intro _ _ hall
        obtain ⟨l, hl, hp⟩ := hex
        rw [hall l hl] at hp
        exact absurd hp (by simp)

def envC6 : NsEnv := fun _ => none

def listenerC6 : Listener := ⟨"http", "HTTP", none, none⟩

def gatewayC6 : Gateway := ⟨"gw", "default", "pingora", [listenerC6]⟩

def routeC6 : RouteInfo := ⟨"r1", "default", [], "HTTPRoute", none⟩

/-- Claim C6 witness: a single plain HTTP listener accepting a same-namespace
route, instantiating the acceptance characterization. -/
theorem validateBinding_outcomes_witness :
    (∃ res, ValidateBinding envC6 gatewayC6 routeC6 = .ok res ∧ res.accepted = true ∧
        res.message = "Route accepted") ↔
      (∃ l ∈ gatewayC6.listeners, passesListener envC6 gatewayC6.nspace routeC6 l = true) := by
  refine (validateBinding_outcomes envC6 gatewayC6 routeC6 ?_).1
  intro l hl
  simp only [gatewayC6, List.mem_singleton] at hl
  subst hl
  exact ⟨reasonAccepted, rfl⟩

/-! ## Grant validator (internal/referencegrant, `IsReferenceAllowed`) -/

/-- Embeds `referencegrant.Reference`. -/
structure Reference where
  group : String
  kind : String
  nspace : String
  name : String

/-- Embeds `gatewayv1beta1.ReferenceGrantFrom`. -/
structure ReferenceGrantFrom where
  group : String
  kind : String
  nspace : String

/-- Embeds `gatewayv1beta1.ReferenceGrantTo`. -/
structure ReferenceGrantTo where
  group : String
  kind : String
  name : Option String

/-- Embeds `gatewayv1beta1.ReferenceGrant` (its spec). -/
structure ReferenceGrant where
  fromEntries : List ReferenceGrantFrom
  toEntries : List ReferenceGrantTo

/-- Embeds `matchesFrom` from the source: group, kind and namespace all equal. -/
def matchesFrom (grantFrom : ReferenceGrantFrom) (fromRef : Reference) : Bool :=
  if grantFrom.group != fromRef.group then false
  else if grantFrom.kind != fromRef.kind then false
  else if grantFrom.nspace != fromRef.nspace then false
  else true

/-- Embeds `matchesTo` from the source: group with the `"core"` alias normalized to
the empty string, kind equal, and the optional name equal when specified. -/
def matchesTo (grantTo : ReferenceGrantTo) (toRef : Reference) : Bool :=
  let grantGroup := if grantTo.group = "core" then "" else grantTo.group
  if grantGroup != toRef.group then false
  else if grantTo.kind != toRef.kind then false
  else
    match grantTo.name with
    | some n => if n != toRef.name then false else true
    | none => true

/-- Embeds `grantAllowsReference` from the source: some `from` entry matches and some
`to` entry matches. -/
def grantAllowsReference (grant : ReferenceGrant) (fromRef toRef : Reference) : Bool :=
  if grant.fromEntries.any (fun grantFrom => matchesFrom grantFrom fromRef) then
    grant.toEntries.any (fun grantTo => matchesTo grantTo toRef)
  else false

/-- Embeds `IsReferenceAllowed` from the source, with the grant list of the target
namespace passed explicitly (modelling the `client.List` call). -/
def IsReferenceAllowed (grantsInTargetNamespace : List ReferenceGrant)
    (fromRef toRef : Reference) : Bool :=
  if fromRef.nspace == toRef.nspace then true
  else grantsInTargetNamespace.any (fun grant => grantAllowsReference grant fromRef toRef)

theorem matchesFrom_iff (grantFrom : ReferenceGrantFrom) (fromRef : Reference) :
    matchesFrom grantFrom fromRef = true ↔
      (grantFrom.group = fromRef.group ∧ grantFrom.kind = fromRef.kind ∧
        grantFrom.nspace = fromRef.nspace) := by
  unfold matchesFrom
  by_cases h1 : grantFrom.group = fromRef.group <;>
    by_cases h2 : grantFrom.kind = fromRef.kind <;>
      by_cases h3 : grantFrom.nspace = fromRef.nspace <;>
        simp [h1, h2, h3]

theorem matchesTo_iff (grantTo : ReferenceGrantTo) (toRef : Reference) :
    matchesTo grantTo toRef = true ↔
      ((if grantTo.group = "core" then "" else grantTo.group) = toRef.group ∧
        grantTo.kind = toRef.kind ∧
        (∀ n, grantTo.name = some n → n = toRef.name)) := by
  unfold matchesTo
  by_cases h1 : (if grantTo.group = "core" then "" else grantTo.group) = toRef.group <;>
    by_cases h2 : grantTo.kind = toRef.kind
  · cases hn : grantTo.name with
    | none => simp [h1, h2, hn]
    | some n =>
      by_cases h3 : n = toRef.name <;> simp [h1, h2, hn, h3]
  · simp [h1, h2]
  · simp [h1, h2]
  · simp [h1, h2]

/-- Claim C10: a reference is allowed iff the namespaces are equal, or some
grant in the target namespace has a `from` entry matching the source's group,
kind and namespace, and a `to` entry whose group (with the `"core"` alias
normalized to the empty string, on the `to` side only) equals the target's,
whose kind equals the target's, and whose name, if specified, equals the
target's name. -/
theorem isReferenceAllowed_iff (grants : List ReferenceGrant) (fromRef toRef : Reference) :
    IsReferenceAllowed grants fromRef toRef = true ↔
      (fromRef.nspace = toRef.nspace ∨
        ∃ grant ∈ grants,
          (∃ f ∈ grant.fromEntries, f.group = fromRef.group ∧ f.kind = fromRef.kind ∧
            f.nspace = fromRef.nspace) ∧
          (∃ t ∈ grant.toEntries,
            (if t.group = "core" then "" else t.group) = toRef.group ∧
            t.kind = toRef.kind ∧
            (∀ n, t.name = some n → n = toRef.name))) := by
  unfold IsReferenceAllowed
  by_cases hns : fromRef.nspace = toRef.nspace
  · simp [hns]
  · have hns' : (fromRef.nspace == toRef.nspace) = false := by
      simp [hns]
    rw [hns']
    simp only [Bool.false_eq_true, if_false, List.any_eq_true]
    constructor
    · rintro ⟨grant, hg, hga⟩
      refine Or.inr ⟨grant, hg, ?_⟩
      unfold grantAllowsReference at hga
      by_cases hfa : grant.fromEntries.any (fun grantFrom => matchesFrom grantFrom fromRef) = true
      · rw [if_pos hfa] at hga
        rw [List.any_eq_true] at hfa hga
        obtain ⟨f, hf, hfm⟩ := hfa
        obtain ⟨t, ht, htm⟩ := hga
        exact ⟨⟨f, hf, (matchesFrom_iff f fromRef).mp hfm⟩,
          ⟨t, ht, (matchesTo_iff t toRef).mp htm⟩⟩
      · rw [if_neg hfa] at hga
        exact absurd hga (by simp)
    · rintro (hns2 | ⟨grant, hg, ⟨f, hf, hfm⟩, ⟨t, ht, htm⟩⟩)
      · exact absurd hns2 hns
      · refine ⟨grant, hg, ?_⟩
        unfold grantAllowsReference
        rw [if_pos (List.any_eq_true.mpr ⟨f, hf, (matchesFrom_iff f fromRef).mpr hfm⟩)]
        exact List.any_eq_true.mpr ⟨t, ht, (matchesTo_iff t toRef).mpr htm⟩

/-! ## Backend builder and weight selector (internal/ingress) -/

/-- Embeds `gatewayv1.BackendRef`, the fields `buildBackend` reads. Weights and ports
are Go `int32`, modelled as `Int` (route weights are validated to
`[0, 1000000]`, far from overflow). -/
structure BackendRef where
  kind : Option String
  nspace : Option String
  name : String
  port : Int
  weight : Option Int
deriving DecidableEq

/-- Embeds `routingv1.Backend`, the fields `buildBackend` writes (`Weight` is a Go
`uint32`, modelled as `Nat`). -/
structure Backend where
  address : String
  weight : Nat
  protocol : String
deriving DecidableEq

/-- Embeds `buildBackend` from the source: non-Service kinds are skipped, the
namespace defaults to the route's, the address is
`<name>.<ns>.svc.<clusterDomain>:<port>`, and the weight defaults to 1 and is
overridden only by a strictly positive specified weight. -/
def buildBackend (clusterDomain routeNamespace : String) (ref : BackendRef) :
    Option Backend :=
  if (match ref.kind with | some k => k != "Service" | none => false) then none
  else
    let backendNamespace :=
      match ref.nspace with
      | some n => n
      | none => routeNamespace
    let address :=
      ref.name ++ "." ++ backendNamespace ++ ".svc." ++ clusterDomain ++ ":" ++ toString ref.port
    let weight : Nat :=
      match ref.weight with
      | some w => if w > 0 then w.toNat else 1
      | none => 1
    some ⟨address, weight, "BACKEND_PROTOCOL_HTTP"⟩

/-- The effective weight of a backend reference: `DefaultBackendWeight = 1`
when unspecified (`GetWeight() == nil`). -/
def effectiveWeight (w : Option Int) : Int :=
  match w with
  | some v => v
  | none => 1

/-- The loop of `SelectHighestWeightIndex`, with the Go range index made
explicit: skip weight 0, select on first candidate or strictly greater
weight. -/
def selGo : List (Option Int) → Nat → Int → Int → Int
  | [], _, selectedIdx, _ => selectedIdx
  | w :: rest, i, selectedIdx, highestWeight =>
    if effectiveWeight w = 0 then selGo rest (i + 1) selectedIdx highestWeight
    else if selectedIdx = -1 ∨ effectiveWeight w > highestWeight then
      selGo rest (i + 1) (Int.ofNat i) (effectiveWeight w)
    else selGo rest (i + 1) selectedIdx highestWeight

/-- Embeds `SelectHighestWeightIndex` from the source. -/
def SelectHighestWeightIndex (refs : List (Option Int)) : Int :=
  if refs.length = 0 then -1 else selGo refs 0 (-1) 0

/-- Specification accumulator for `selGo`: the currently selected index and its
weight, if any. -/
def bestFrom : List (Option Int) → Nat → Option (Nat × Int) → Option (Nat × Int)
  | [], _, acc => acc
  | w :: rest, i, acc =>
    if effectiveWeight w = 0 then bestFrom rest (i + 1) acc
    else
      match acc with
      | none => bestFrom rest (i + 1) (some (i, effectiveWeight w))
      | some (j, hv) =>
        if effectiveWeight w > hv then bestFrom rest (i + 1) (some (i, effectiveWeight w))
        else bestFrom rest (i + 1) (some (j, hv))

def stateIdx : Option (Nat × Int) → Int
  | none => -1
  | some (j, _) => Int.ofNat j

def stateW : Option (Nat × Int) → Int
  | none => 0
  | some (_, v) => v

def idxOf : Option (Nat × Int) → Int
  | none => -1
  | some (j, _) => Int.ofNat j

theorem selGo_eq_bestFrom (l : List (Option Int)) :
    ∀ (i : Nat) (acc : Option (Nat × Int)),
    selGo l i (stateIdx acc) (stateW acc) = idxOf (bestFrom l i acc) := by
  induction l with
  | nil =>
    intro i acc
    cases acc with
    | none => rfl
    | some p => rfl
  | cons w rest ih =>
    intro i acc
    by_cases hv : effectiveWeight w = 0
    · cases acc with
      | none =>
        rw [selGo, if_pos hv, bestFrom, if_pos hv]
        exact ih (i + 1) none
      | some p =>
        rw [selGo, if_pos hv, bestFrom, if_pos hv]
        exact ih (i + 1) (some p)
    · cases acc with
      | none =>
        have hc : stateIdx (none : Option (Nat × Int)) = -1 ∨
            effectiveWeight w > stateW (none : Option (Nat × Int)) := Or.inl rfl
        rw [selGo, bestFrom, if_neg hv, if_neg hv, if_pos hc]
        exact ih (i + 1) (some (i, effectiveWeight w))
      | some p =>
        obtain ⟨j, hw⟩ := p
        have hj : ¬ (stateIdx (some (j, hw)) = -1) := by
          show ¬ (Int.ofNat j = -1)
          intro hcontra
          have h2 : (0 : Int) ≤ Int.ofNat j := Int.ofNat_nonneg j
          rw [hcontra] at h2
          exact absurd h2 (by decide)
        by_cases hgt : effectiveWeight w > hw
        · have hc : stateIdx (some (j, hw)) = -1 ∨
              effectiveWeight w > stateW (some (j, hw)) := Or.inr hgt
          rw [selGo, bestFrom, if_neg hv, if_neg hv, if_pos hc]
          simp only [if_pos hgt]
          exact ih (i + 1) (some (i, effectiveWeight w))
        · have hc : ¬ (stateIdx (some (j, hw)) = -1 ∨
              effectiveWeight w > stateW (some (j, hw))) := by
            rw [not_or]
            exact ⟨hj, hgt⟩
          rw [selGo, bestFrom, if_neg hv, if_neg hv, if_neg hc]
          simp only [if_neg hgt]
          exact ih (i + 1) (some (j, hw))

theorem bestFrom_acc_some (l : List (Option Int)) :
    ∀ (i : Nat) (p : Nat × Int), bestFrom l i (some p) ≠ none := by
  induction l with
  | nil => intro i p h; exact Option.noConfusion h
  | cons w rest ih =>
    intro i p
    by_cases hv : effectiveWeight w = 0
    · rw [bestFrom, if_pos hv]
      exact ih (i + 1) p
    · obtain ⟨j, hw⟩ := p
      by_cases hgt : effectiveWeight w > hw
      · rw [bestFrom, if_neg hv]
        simp only [if_pos hgt]
        exact ih (i + 1) (i, effectiveWeight w)
      · rw [bestFrom, if_neg hv]
        simp only [if_neg hgt]
        exact ih (i + 1) (j, hw)

theorem bestFrom_none_iff (l : List (Option Int)) :
    ∀ i : Nat, bestFrom l i none = none ↔ ∀ w ∈ l, effectiveWeight w = 0 := by
  induction l with
  | nil => intro i; simp [bestFrom]
  | cons w rest ih =>
    intro i
    by_cases hv : effectiveWeight w = 0
    · rw [bestFrom, if_pos hv]
      rw [ih (i + 1)]
      constructor
      · intro hall w' hw'
        rcases List.mem_cons.mp hw' with h | h
        · rw [h]; exact hv
        · exact hall w' h
      · intro hall w' hw'
        exact hall w' (List.mem_cons_of_mem w hw')
    · rw [bestFrom, if_neg hv]
      constructor
      · intro hc
        exact absurd hc (bestFrom_acc_some rest (i + 1) (i, effectiveWeight w))
      · intro hall
        exact absurd (hall w (by simp)) hv

theorem bestFrom_cons_zero (w : Option Int) (rest : List (Option Int)) (i : Nat)
    (acc : Option (Nat × Int)) (hv : effectiveWeight w = 0) :
    bestFrom (w :: rest) i acc = bestFrom rest (i + 1) acc := by
  cases acc with
  | none => rw [bestFrom, if_pos hv]
  | some p => rw [bestFrom, if_pos hv]

theorem bestFrom_cons_first (w : Option Int) (rest : List (Option Int)) (i : Nat)
    (hv : ¬ effectiveWeight w = 0) :
    bestFrom (w :: rest) i none = bestFrom rest (i + 1) (some (i, effectiveWeight w)) := by
  rw [bestFrom, if_neg hv]

theorem bestFrom_cons_gt (w : Option Int) (rest : List (Option Int)) (i j0 : Nat) (v0 : Int)
    (hv : ¬ effectiveWeight w = 0) (hgt : effectiveWeight w > v0) :
    bestFrom (w :: rest) i (some (j0, v0)) =
      bestFrom rest (i + 1) (some (i, effectiveWeight w)) := by
  rw [bestFrom, if_neg hv]
  simp only [if_pos hgt]

theorem bestFrom_cons_le (w : Option Int) (rest : List (Option Int)) (i j0 : Nat) (v0 : Int)
    (hv : ¬ effectiveWeight w = 0) (hgt : ¬ effectiveWeight w > v0) :
    bestFrom (w :: rest) i (some (j0, v0)) = bestFrom rest (i + 1) (some (j0, v0)) := by
  rw [bestFrom, if_neg hv]
  simp only [if_neg hgt]

theorem bestFrom_spec (l : List (Option Int)) :
    ∀ (i0 : Nat) (acc : Option (Nat × Int)) (j : Nat) (v : Int),
    (∀ w ∈ l, 0 ≤ effectiveWeight w) →
    (∀ p ∈ acc, 0 < p.2) →
    bestFrom l i0 acc = some (j, v) →
    0 < v ∧ (∀ w ∈ l, effectiveWeight w ≤ v) ∧ (∀ p ∈ acc, p.2 ≤ v) ∧
      (acc = some (j, v) ∨
        ∃ k, ∃ hk : k < l.length, j = i0 + k ∧ effectiveWeight (l.get ⟨k, hk⟩) = v ∧
          (∀ p ∈ acc, p.2 < v) ∧
          (∀ m, ∀ hm : m < l.length, m < k → effectiveWeight (l.get ⟨m, hm⟩) < v)) := by
  induction l with
  | nil =>
    intro i0 acc j v _ hacc hbf
    rw [bestFrom] at hbf
    have hjv : (j, v) ∈ acc := Option.mem_def.mpr hbf
    refine ⟨hacc (j, v) hjv, by simp, ?_, Or.inl hbf⟩
    intro p hp
    rw [Option.mem_def, hbf] at hp
    cases hp
    exact le_refl _
  | cons w rest ih =>
    intro i0 acc j v hpos hacc hbf
    have hposr : ∀ w' ∈ rest, 0 ≤ effectiveWeight w' :=
      fun w' hw' => hpos w' (List.mem_cons_of_mem w hw')
    by_cases hv0 : effectiveWeight w = 0
    · rw [bestFrom_cons_zero w rest i0 acc hv0] at hbf
      obtain ⟨h1, h2, h3, h4⟩ := ih (i0 + 1) acc j v hposr hacc hbf
      refine ⟨h1, ?_, h3, ?_⟩
      · intro w' hw'
        rcases List.mem_cons.mp hw' with h | h
        · rw [h, hv0]
          exact le_of_lt h1
        · exact h2 w' h
      · rcases h4 with h4 | ⟨k, hk, hj, heff, hstrict, hpre⟩
        · exact Or.inl h4
        · refine Or.inr ⟨k + 1, by simp; omega, by omega, by simpa using heff, hstrict, ?_⟩
          intro m hm hmk
          cases m with
          | zero =>
            have hg : (w :: rest).get ⟨0, hm⟩ = w := rfl
            rw [hg, hv0]
            exact h1
          | succ m' =>
            have hm' : m' < rest.length := by
              simp at hm
              omega
            have := hpre m' hm' (by omega)
            simpa using this
    · have hwpos : 0 < effectiveWeight w :=
        lt_of_le_of_ne (hpos w (by simp)) (Ne.symm hv0)
      rcases acc with _ | ⟨j0, v0⟩
      · rw [bestFrom_cons_first w rest i0 hv0] at hbf
        have haccw : ∀ p ∈ some (i0, effectiveWeight w), 0 < p.2 := by
          intro p hp
          rw [Option.mem_def] at hp
          cases hp
          exact hwpos
        obtain ⟨h1, h2, h3, h4⟩ := ih (i0 + 1) (some (i0, effectiveWeight w)) j v hposr haccw hbf
        have hwv : effectiveWeight w ≤ v := h3 (i0, effectiveWeight w) (by rw [Option.mem_def])
        refine ⟨h1, ?_, by simp, ?_⟩
        · intro w' hw'
          rcases List.mem_cons.mp hw' with h | h
          · rw [h]
            exact hwv
          · exact h2 w' h
        · rcases h4 with h4 | ⟨k, hk, hj, heff, hstrict, hpre⟩
          · have hji : j = i0 ∧ v = effectiveWeight w := by
              have := Option.some.inj h4
              exact ⟨(congrArg Prod.fst this).symm, (congrArg Prod.snd this).symm⟩
            refine Or.inr ⟨0, by simp, by omega, ?_, by simp, by omega⟩
            have hg : (w :: rest).get ⟨0, by simp⟩ = w := rfl
            rw [hg, ← hji.2]
          · have hwv' : effectiveWeight w < v :=
              hstrict (i0, effectiveWeight w) (by rw [Option.mem_def])
            refine Or.inr ⟨k + 1, by simp; omega, by omega, by simpa using heff, by simp, ?_⟩
            intro m hm hmk
            cases m with
            | zero =>
              have hg : (w :: rest).get ⟨0, hm⟩ = w := rfl
              rw [hg]
              exact hwv'
            | succ m' =>
              have hm' : m' < rest.length := by
                simp at hm
                omega
              have := hpre m' hm' (by omega)
              simpa using this
      · have hv0pos : 0 < v0 := hacc (j0, v0) (by rw [Option.mem_def])
        by_cases hgt : effectiveWeight w > v0
        · rw [bestFrom_cons_gt w rest i0 j0 v0 hv0 hgt] at hbf
          have haccw : ∀ p ∈ some (i0, effectiveWeight w), 0 < p.2 := by
            intro p hp
            rw [Option.mem_def] at hp
            cases hp
            exact hwpos
          obtain ⟨h1, h2, h3, h4⟩ := ih (i0 + 1) (some (i0, effectiveWeight w)) j v hposr haccw hbf
          have hwv : effectiveWeight w ≤ v := h3 (i0, effectiveWeight w) (by rw [Option.mem_def])
          have hv0v : v0 < v := lt_of_lt_of_le hgt hwv
          refine ⟨h1, ?_, ?_, ?_⟩
          · intro w' hw'
            rcases List.mem_cons.mp hw' with h | h
            · rw [h]
              exact hwv
            · exact h2 w' h
          · intro p hp
            rw [Option.mem_def] at hp
            cases hp
            exact le_of_lt hv0v
          · rcases h4 with h4 | ⟨k, hk, hj, heff, hstrict, hpre⟩
            · have hji : j = i0 ∧ v = effectiveWeight w := by
                have := Option.some.inj h4
                exact ⟨(congrArg Prod.fst this).symm, (congrArg Prod.snd this).symm⟩
              refine Or.inr ⟨0, by simp, by omega, ?_, ?_, by omega⟩
              · have hg : (w :: rest).get ⟨0, by simp⟩ = w := rfl
                rw [hg, ← hji.2]
              · intro p hp
                rw [Option.mem_def] at hp
                cases hp
                exact hv0v
            · have hwv' : effectiveWeight w < v :=
                hstrict (i0, effectiveWeight w) (by rw [Option.mem_def])
              refine Or.inr ⟨k + 1, by simp; omega, by omega, by simpa using heff, ?_, ?_⟩
              · intro p hp
                rw [Option.mem_def] at hp
                cases hp
                exact hv0v
              · intro m hm hmk
                cases m with
                | zero =>
                  have hg : (w :: rest).get ⟨0, hm⟩ = w := rfl
                  rw [hg]
                  exact hwv'
                | succ m' =>
                  have hm' : m' < rest.length := by
                    simp at hm
                    omega
                  have := hpre m' hm' (by omega)
                  simpa using this
        · rw [bestFrom_cons_le w rest i0 j0 v0 hv0 hgt] at hbf
          obtain ⟨h1, h2, h3, h4⟩ := ih (i0 + 1) (some (j0, v0)) j v hposr hacc hbf
          have hv0v : v0 ≤ v := h3 (j0, v0) (by rw [Option.mem_def])
          have hwle : effectiveWeight w ≤ v0 := not_lt.mp hgt
          refine ⟨h1, ?_, h3, ?_⟩
          · intro w' hw'
            rcases List.mem_cons.mp hw' with h | h
            · rw [h]
              exact le_trans hwle hv0v
            · exact h2 w' h
          · rcases h4 with h4 | ⟨k, hk, hj, heff, hstrict, hpre⟩
            · exact Or.inl h4
            · have hv0v' : v0 < v := hstrict (j0, v0) (by rw [Option.mem_def])
              refine Or.inr ⟨k + 1, by simp; omega, by omega, by simpa using heff, hstrict, ?_⟩
              intro m hm hmk
              cases m with
              | zero =>
                have hg : (w :: rest).get ⟨0, hm⟩ = w := rfl
                rw [hg]
                exact lt_of_le_of_lt hwle hv0v'
              | succ m' =>
                have hm' : m' < rest.length := by
                  simp at hm
                  omega
                have := hpre m' hm' (by omega)
                simpa using this

/-- Claim C5: the wire weight defaults to 1 when unspecified; a strictly
positive weight is used verbatim; the single-backend selector never picks a
weight-0 backend, returns -1 on an empty or all-zero list, and otherwise picks
the earliest index attaining the highest strictly-positive effective weight. -/
theorem backend_weight_defaults_and_selector :
    (∀ (clusterDomain routeNamespace : String) (ref : BackendRef) (b : Backend),
      ref.weight = none → buildBackend clusterDomain routeNamespace ref = some b →
      b.weight = 1)
    ∧ (∀ (clusterDomain routeNamespace : String) (ref : BackendRef) (b : Backend) (w : Int),
      ref.weight = some w → 0 < w → buildBackend clusterDomain routeNamespace ref = some b →
      b.weight = w.toNat)
    ∧ (∀ refs : List (Option Int), (∀ w ∈ refs, 0 ≤ effectiveWeight w) →
      ((SelectHighestWeightIndex refs = -1 ↔ ∀ w ∈ refs, effectiveWeight w = 0)
       ∧ ∀ i : Nat, SelectHighestWeightIndex refs = Int.ofNat i →
          ∃ hi : i < refs.length,
            0 < effectiveWeight (refs.get ⟨i, hi⟩) ∧
            (∀ j, ∀ hj : j < refs.length,
              effectiveWeight (refs.get ⟨j, hj⟩) ≤ effectiveWeight (refs.get ⟨i, hi⟩)) ∧
            (∀ j, ∀ hj : j < refs.length, j < i →
              effectiveWeight (refs.get ⟨j, hj⟩) < effectiveWeight (refs.get ⟨i, hi⟩)))) := by
  refine ⟨?_, ?_, ?_⟩
  · intro cd ns ref b hw hb
    simp only [buildBackend, hw] at hb
    split at hb
    · exact absurd hb (by simp)
    · have := Option.some.inj hb
      rw [← this]
  · intro cd ns ref b w hw hwpos hb
    simp only [buildBackend, hw] at hb
    split at hb
    · exact absurd hb (by simp)
    · have := Option.some.inj hb
      rw [← this]
  · intro refs hpos
    by_cases hlen : refs.length = 0
    · have hnil : refs = [] := List.eq_nil_of_length_eq_zero hlen
      subst hnil
      constructor
      · simp [SelectHighestWeightIndex]
      · intro i hi
        exfalso
        have h0 : SelectHighestWeightIndex ([] : List (Option Int)) = -1 := rfl
        rw [h0, Int.ofNat_eq_natCast] at hi
        omega
    · have hsel : SelectHighestWeightIndex refs = idxOf (bestFrom refs 0 none) := by
        rw [SelectHighestWeightIndex, if_neg hlen]
        exact selGo_eq_bestFrom refs 0 none
      constructor
      · rw [hsel]
        cases hbf : bestFrom refs 0 none with
        | none =>
          simp only [idxOf]
          exact ⟨fun _ => (bestFrom_none_iff refs 0).mp hbf, fun _ => trivial⟩
        | some p =>
          obtain ⟨j, v⟩ := p
          simp only [idxOf]
          constructor
          · intro h
            exfalso
            rw [Int.ofNat_eq_natCast] at h
            omega
          · intro hall
            exfalso
            have := (bestFrom_none_iff refs 0).mpr hall
            rw [hbf] at this
            exact Option.noConfusion this
      · intro i hi
        rw [hsel] at hi
        cases hbf : bestFrom refs 0 none with
        | none =>
          exfalso
          rw [hbf] at hi
          simp only [idxOf] at hi
          rw [Int.ofNat_eq_natCast] at hi
          omega
        | some p =>
          obtain ⟨j, v⟩ := p
          rw [hbf] at hi
          simp only [idxOf] at hi
          have hji : j = i := Int.ofNat.inj hi
          subst hji
          obtain ⟨h1, h2, _, h4⟩ := bestFrom_spec refs 0 none j v hpos (by simp) hbf
          rcases h4 with h4 | ⟨k, hk, hj, heff, _, hpre⟩
          · exact absurd h4 (by simp)
          · have hkj : k = j := by omega
            subst hkj
            refine ⟨hk, ?_, ?_, ?_⟩
            · rw [heff]
              exact h1
            · intro j' hj'
              rw [heff]
              exact h2 _ (refs.get_mem _ _)
            · intro j' hj' hlt
              rw [heff]
              exact hpre j' hj' hlt

def refsC5 : List (Option Int) := [some 0, some 5, none, some 5]

/-- Claim C5 witness: a concrete backend with no weight, one with weight 7,
and a concrete selector input. -/
theorem backend_weight_defaults_and_selector_witness :
    ((⟨"svc" ++ "." ++ "ns" ++ ".svc." ++ "c" ++ ":" ++ toString (80 : Int), 1,
        "BACKEND_PROTOCOL_HTTP"⟩ : Backend).weight = 1)
    ∧ ((⟨"svc" ++ "." ++ "ns" ++ ".svc." ++ "c" ++ ":" ++ toString (80 : Int), 7,
        "BACKEND_PROTOCOL_HTTP"⟩ : Backend).weight = Int.toNat 7)
    ∧ (SelectHighestWeightIndex refsC5 = -1 ↔ ∀ w ∈ refsC5, effectiveWeight w = 0) := by
  refine ⟨backend_weight_defaults_and_selector.1 "c" "ns" ⟨none, none, "svc", 80, none⟩ _
      rfl rfl,
    backend_weight_defaults_and_selector.2.1 "c" "ns" ⟨none, none, "svc", 80, some 7⟩ _ 7
      rfl (by decide) rfl,
    (backend_weight_defaults_and_selector.2.2 refsC5 (by decide)).1⟩

/-! ## Route syncer (controller, `PingoraRouteSyncer.SyncAllRoutes`) -/

/-- The proxy's `UpdateRoutesResponse`, the fields the syncer reads. -/
structure PushReply where
  success : Bool
  error : String
  appliedVersion : Nat
deriving DecidableEq

/-- The outcome of the `UpdateRoutes` RPC: a transport error or a reply. -/
inductive PushOutcome where
  | rpcError (msg : String)
  | reply (r : PushReply)
deriving DecidableEq

/-- The syncer state the push path touches: whether a client handle is held
(`grpcClient != nil`) and the version counter. -/
structure SyncerState where
  connected : Bool
  version : Nat
deriving DecidableEq

/-- What `SyncAllRoutes` hands back to the reconciler: the `RequeueAfter` of
the `ctrl.Result`, whether a `SyncResult` was returned, and the error. -/
structure SyncOutput where
  requeueAfterSeconds : Nat
  hasResult : Bool
  errorMsg : Option String
deriving DecidableEq

/-- Embeds `apiErrorRequeueDelay = 30 * time.Second`. -/
def apiErrorRequeueDelaySeconds : Nat := 30

/-- Embeds `SyncAllRoutes` from the source, as a state transition on the connection
handle and version counter. `connectOK` is the outcome of `Connect` when it is
attempted (not connected yet); `listOK` is the outcome of the two route `List`
calls; `outcome` is the push RPC's outcome. The version counter is incremented
exactly once per attempted push (`s.version.Add(1)`), before the RPC; on a
transport error the client handle is closed and set to nil; on a
`success=false` reply the handle is left in place and an error is returned
with a 30 s requeue; on a `success=true` reply the call reports success
without comparing `appliedVersion` to the sent version (it is only logged). -/
def syncAllRoutes (st : SyncerState) (connectOK : Bool) (listOK : Bool)
    (outcome : PushOutcome) : SyncerState × SyncOutput :=
  if st.connected = false ∧ connectOK = false then
    (⟨false, st.version⟩, ⟨apiErrorRequeueDelaySeconds, false, none⟩)
  else if listOK = false then
    (⟨true, st.version⟩, ⟨0, false, some "failed to list routes"⟩)
  else
    match outcome with
    | .rpcError msg =>
      (⟨false, st.version + 1⟩,
       ⟨apiErrorRequeueDelaySeconds, true,
        some ("failed to update routes via gRPC: " ++ msg)⟩)
    | .reply r =>
      if r.success = false then
        (⟨true, st.version + 1⟩,
         ⟨apiErrorRequeueDelaySeconds, true, some ("route update failed: " ++ r.error)⟩)
      else (⟨true, st.version + 1⟩, ⟨0, true, none⟩)

/-- A sync is reported to the caller as successful when it returns no error
and requests no requeue. -/
def reportedSuccess (out : SyncOutput) : Bool :=
  out.errorMsg.isNone && decide (out.requeueAfterSeconds = 0)

/-- A push failed: the RPC transport errored or the proxy replied
`success=false`. -/
def pushFailed : PushOutcome → Bool
  | .rpcError _ => true
  | .reply r => !r.success

/-- Claim C1 counterexample: from a connected state with version 0 the push
sends version 1, and a reply with the success flag set but
`applied_version = 5 ≠ 1` is still reported as a successful sync — the code
never compares the reply's applied version with the sent version. -/
theorem syncAll_success_ignores_applied_version :
    reportedSuccess (syncAllRoutes ⟨true, 0⟩ true true (.reply ⟨true, "", 5⟩)).2 = true
    ∧ (syncAllRoutes ⟨true, 0⟩ true true (.reply ⟨true, "", 5⟩)).1.version = 1
    ∧ (5 : Nat) ≠ 1 := by
  exact ⟨rfl, rfl, by decide⟩

/-- Claim C1 (amended): when the push RPC completes with a reply, the sync is
reported as successful iff the reply's success flag is set; the reply's
`applied_version` is not consulted. -/
theorem syncAll_reported_success_iff_flag (st : SyncerState) (connectOK listOK : Bool)
    (r : PushReply) (hc : st.connected = true) (hl : listOK = true) :
    reportedSuccess (syncAllRoutes st connectOK listOK (.reply r)).2 = r.success := by
  cases hr : r.success <;>
    simp [syncAllRoutes, reportedSuccess, hc, hl, hr, apiErrorRequeueDelaySeconds]

/-- Claim C1 witness: a concrete failed reply from a connected state. -/
theorem syncAll_reported_success_iff_flag_witness :
    reportedSuccess (syncAllRoutes ⟨true, 3⟩ false true (.reply ⟨false, "x", 4⟩)).2 =
      (⟨false, "x", 4⟩ : PushReply).success :=
  syncAll_reported_success_iff_flag ⟨true, 3⟩ false true ⟨false, "x", 4⟩ rfl rfl

/-- Claim C2 counterexample: a push that fails because the proxy replied
`success=false` requeues after 30 s and returns an error, but does NOT drop
the client connection handle — the handle survives into the next SyncAll. -/
theorem syncAll_failed_reply_keeps_connection :
    pushFailed (.reply ⟨false, "boom", 0⟩) = true
    ∧ (syncAllRoutes ⟨true, 0⟩ true true
        (.reply ⟨false, "boom", 0⟩)).2.requeueAfterSeconds = 30
    ∧ (syncAllRoutes ⟨true, 0⟩ true true (.reply ⟨false, "boom", 0⟩)).1.connected = true := by
  exact ⟨rfl, rfl, rfl⟩

/-- Claim C2 (amended): every failed push — RPC transport error or a
`success=false` reply — requeues after ~30 s and surfaces an error, but the
client connection handle is dropped only on a transport error; a
`success=false` reply keeps the handle. -/
theorem syncAll_failure_requeue_and_drop (st : SyncerState) (connectOK listOK : Bool)
    (outcome : PushOutcome) (hc : st.connected = true) (hl : listOK = true)
    (hf : pushFailed outcome = true) :
    (syncAllRoutes st connectOK listOK outcome).2.requeueAfterSeconds =
      apiErrorRequeueDelaySeconds
    ∧ (syncAllRoutes st connectOK listOK outcome).2.errorMsg.isSome = true
    ∧ (syncAllRoutes st connectOK listOK outcome).1.connected =
        (match outcome with
         | .rpcError _ => false
         | .reply _ => true) := by
  cases outcome with
  | rpcError msg => simp [syncAllRoutes, hc, hl]
  | reply r =>
    have hs : r.success = false := by
      unfold pushFailed at hf
      simp at hf
      exact hf
    simp [syncAllRoutes, hc, hl, hs]

/-- Claim C2 witness: a transport error and a failed reply at concrete
states. -/
theorem syncAll_failure_requeue_and_drop_witness :
    ((syncAllRoutes ⟨true, 7⟩ true true (.rpcError "dial")).2.requeueAfterSeconds =
        apiErrorRequeueDelaySeconds
      ∧ (syncAllRoutes ⟨true, 7⟩ true true (.rpcError "dial")).2.errorMsg.isSome = true
      ∧ (syncAllRoutes ⟨true, 7⟩ true true (.rpcError "dial")).1.connected =
          (match (.rpcError "dial" : PushOutcome) with
           | .rpcError _ => false
           | .reply _ => true)) :=
  syncAll_failure_requeue_and_drop ⟨true, 7⟩ true true (.rpcError "dial") rfl rfl rfl

/-! ## Relevant-route snapshot (controller, `getRelevantHTTPRoutes` /
`getRelevantGRPCRoutes`) -/

/-- The cluster as the syncer's code path sees it: the namespace cache, the
Gateway cache (`Get` by name and namespace; `none` for any error), and the
configured class name. -/
structure ClusterEnv where
  nsLabels : NsEnv
  getGateway : String → String → Option Gateway
  gatewayClassName : String

/-- Embeds `gatewayv1.ParentReference`, the fields this code path reads. -/
structure ParentRef where
  kind : Option String
  nspace : Option String
  name : String
  sectionName : Option String
deriving DecidableEq

/-- The common shape of an HTTPRoute / GRPCRoute the syncer reads. -/
structure SyncRoute where
  name : String
  nspace : String
  hostnames : List Hostname
  parentRefs : List ParentRef
deriving DecidableEq

/-- The `routebinding.RouteInfo` built for one parent ref of one route. -/
def buildRouteInfo (kindStr : String) (route : SyncRoute) (ref : ParentRef) : RouteInfo :=
  ⟨route.name, route.nspace, route.hostnames, kindStr, ref.sectionName⟩

/-- The per-parent-ref body of the `getRelevant*Routes` loop: skip non-Gateway
kinds, resolve the parent namespace, fetch the Gateway, check its class, and
validate the binding; `none` when the ref is skipped (including binding
errors, which are logged and skipped). -/
def parentBindingResult (env : ClusterEnv) (kindStr : String) (route : SyncRoute)
    (ref : ParentRef) : Option BindingResult :=
  if (match ref.kind with | some k => k != "Gateway" | none => false) then none
  else
    match env.getGateway ref.name
        (match ref.nspace with | some n => n | none => route.nspace) with
    | none => none
    | some gateway =>
      if gateway.gatewayClassName != env.gatewayClassName then none
      else
        match ValidateBinding env.nsLabels gateway (buildRouteInfo kindStr route ref) with
        | .error _ => none
        | .ok result => some result

/-- The `bindingResults` map of one route, keyed by parent-ref index. -/
def routeBindingResults (env : ClusterEnv) (kindStr : String) (route : SyncRoute) :
    List (Nat × BindingResult) :=
  route.parentRefs.enum.filterMap (fun p =>
    (parentBindingResult env kindStr route p.2).map (fun result => (p.1, result)))

/-- Embeds `hasAcceptedBinding` of the loop: some retained per-parent result is
accepted. -/
def hasAcceptedBinding (env : ClusterEnv) (kindStr : String) (route : SyncRoute) : Bool :=
  (routeBindingResults env kindStr route).any (fun p => p.2.accepted)

/-- The `getRelevant*Routes` loop: each route contributes its binding map, and
is appended to the relevant list (once) iff some binding was accepted. -/
def getRelevantRoutes (env : ClusterEnv) (kindStr : String) :
    List SyncRoute → List SyncRoute × List (String × List (Nat × BindingResult))
  | [] => ([], [])
  | route :: rest =>
    (if hasAcceptedBinding env kindStr route then
       route :: (getRelevantRoutes env kindStr rest).1
     else (getRelevantRoutes env kindStr rest).1,
     (route.nspace ++ "/" ++ route.name, routeBindingResults env kindStr route) ::
       (getRelevantRoutes env kindStr rest).2)

/-- Embeds `getRelevantHTTPRoutes` from the source. -/
def getRelevantHTTPRoutes (env : ClusterEnv) (routes : List SyncRoute) :
    List SyncRoute × List (String × List (Nat × BindingResult)) :=
  getRelevantRoutes env "HTTPRoute" routes

/-- Embeds `getRelevantGRPCRoutes` from the source. -/
def getRelevantGRPCRoutes (env : ClusterEnv) (routes : List SyncRoute) :
    List SyncRoute × List (String × List (Nat × BindingResult)) :=
  getRelevantRoutes env "GRPCRoute" routes

theorem getRelevantRoutes_fst (env : ClusterEnv) (kindStr : String)
    (routes : List SyncRoute) :
    (getRelevantRoutes env kindStr routes).1 =
      routes.filter (fun q => hasAcceptedBinding env kindStr q) := by
  induction routes with
  | nil => rfl
  | cons route rest ih =>
    rw [getRelevantRoutes, List.filter_cons]
    by_cases hacc : hasAcceptedBinding env kindStr route = true <;> simp [hacc, ih]

theorem count_filter_eq {α : Type} [DecidableEq α] (p : α → Bool) (l : List α) (a : α) :
    (l.filter p).count a = if p a = true then l.count a else 0 := by
  by_cases hp : p a = true
  · rw [if_pos hp]
    exact List.count_filter hp
  · rw [if_neg hp]
    rw [List.count_eq_zero]
    intro hmem
    exact hp (List.of_mem_filter hmem)

/-- Claim C3: a route appears in the sync snapshot exactly once iff some
qualifying parent-ref (kind Gateway, Gateway fetchable and of the configured
class) has an accepted BindingResult; it appears at most once regardless of
how many parents or listeners accepted it; and every route in the snapshot has
at least one accepted per-parent BindingResult — for both the HTTP and the
gRPC snapshot. -/
theorem snapshot_route_membership (env : ClusterEnv) (routes : List SyncRoute)
    (r : SyncRoute) (h : routes.count r = 1) :
    (((getRelevantHTTPRoutes env routes).1.count r = 1) ↔
      hasAcceptedBinding env "HTTPRoute" r = true)
    ∧ (getRelevantHTTPRoutes env routes).1.count r ≤ 1
    ∧ (∀ q ∈ (getRelevantHTTPRoutes env routes).1,
        hasAcceptedBinding env "HTTPRoute" q = true)
    ∧ (((getRelevantGRPCRoutes env routes).1.count r = 1) ↔
      hasAcceptedBinding env "GRPCRoute" r = true)
    ∧ (getRelevantGRPCRoutes env routes).1.count r ≤ 1
    ∧ (∀ q ∈ (getRelevantGRPCRoutes env routes).1,
        hasAcceptedBinding env "GRPCRoute" q = true) := by
  have key : ∀ kindStr : String,
      (((getRelevantRoutes env kindStr routes).1.count r = 1) ↔
        hasAcceptedBinding env kindStr r = true)
      ∧ (getRelevantRoutes env kindStr routes).1.count r ≤ 1
      ∧ (∀ q ∈ (getRelevantRoutes env kindStr routes).1,
          hasAcceptedBinding env kindStr q = true) := by
    intro kindStr
    rw [getRelevantRoutes_fst env kindStr routes]
    rw [count_filter_eq]
    refine ⟨?_, ?_, ?_⟩
    · by_cases hacc : hasAcceptedBinding env kindStr r = true
      · rw [if_pos hacc, h]
        exact ⟨fun _ => hacc, fun _ => rfl⟩
      · rw [if_neg hacc]
        exact ⟨fun hz => absurd hz (by decide), fun hz => absurd hz hacc⟩
    · by_cases hacc : hasAcceptedBinding env kindStr r = true
      · rw [if_pos hacc, h]
      · rw [if_neg hacc]
        exact Nat.zero_le 1
    · intro q hq
      exact List.of_mem_filter hq
  exact ⟨(key "HTTPRoute").1, (key "HTTPRoute").2.1, (key "HTTPRoute").2.2,
    (key "GRPCRoute").1, (key "GRPCRoute").2.1, (key "GRPCRoute").2.2⟩

def gatewayC3 : Gateway := ⟨"gw", "default", "pingora", [⟨"http", "HTTP", none, none⟩]⟩

def envC3 : ClusterEnv :=
  ⟨fun _ => none,
   fun n ns => if n = "gw" ∧ ns = "default" then some gatewayC3 else none,
   "pingora"⟩

def routeC3 : SyncRoute := ⟨"r1", "default", [], [⟨none, none, "gw", none⟩]⟩

/-- Claim C3 witness: one route with one accepted parent in a one-gateway
cluster. -/
theorem snapshot_route_membership_witness :
    (((getRelevantHTTPRoutes envC3 [routeC3]).1.count routeC3 = 1) ↔
      hasAcceptedBinding envC3 "HTTPRoute" routeC3 = true)
    ∧ (getRelevantHTTPRoutes envC3 [routeC3]).1.count routeC3 ≤ 1 := by
  have h := snapshot_route_membership envC3 [routeC3] routeC3 (by decide)
  exact ⟨h.1, h.2.1⟩

/-! ## Attached-route counting (controller, `countAttachedRoutes`) -/

theorem walkListeners_ok_matched (env : NsEnv) (gwNs : String) (route : RouteInfo) :
    ∀ (ls : List Listener) (matched m : List String) (r0 rr : String),
    walkListeners env gwNs route ls matched r0 = .ok (m, rr) →
    ∃ sub, m = matched ++ sub ∧ sub.Sublist (ls.map (fun l => l.name)) := by
  intro ls
  induction ls with
  | nil =>
    intro matched m r0 rr hw
    rw [walkListeners] at hw
    have h := Except.ok.inj hw
    have h1 : matched = m := congrArg Prod.fst h
    exact ⟨[], by rw [← h1, List.append_nil], List.nil_sublist _⟩
  | cons l ls ih =>
    intro matched m r0 rr hw
    rw [walkListeners] at hw
    by_cases hskip : skipListener route l = true
    · rw [if_pos hskip] at hw
      obtain ⟨sub, hm, hs⟩ := ih matched m r0 rr hw
      exact ⟨sub, hm, hs.cons _⟩
    · rw [if_neg hskip] at hw
      cases hr : listenerAcceptsRoute env l gwNs route with
      | error e =>
        rw [hr] at hw
        exact absurd hw (by simp)
      | ok reason =>
        rw [hr] at hw
        by_cases hacc : reason = reasonAccepted
        · simp only [hacc, if_pos rfl] at hw
          obtain ⟨sub, hm, hs⟩ := ih (matched ++ [l.name]) m r0 rr hw
          refine ⟨l.name :: sub, ?_, hs.cons₂ _⟩
          rw [hm, List.append_assoc]
          rfl
        · simp only [if_neg hacc] at hw
          obtain ⟨sub, hm, hs⟩ := ih matched m reason rr hw
          exact ⟨sub, hm, hs.cons _⟩

theorem findMatchingListeners_matched_sublist (env : NsEnv) (gateway : Gateway)
    (route : RouteInfo) (m : List String) (rr : String)
    (h : findMatchingListeners env gateway route = .ok (m, rr)) :
    m.Sublist (gateway.listeners.map (fun l => l.name)) := by
  unfold findMatchingListeners at h
  by_cases hz : gateway.listeners.length = 0
  · rw [if_pos hz] at h
    have h1 : ([] : List String) = m := congrArg Prod.fst (Except.ok.inj h)
    rw [← h1]
    exact List.nil_sublist _
  · rw [if_neg hz] at h
    cases hw : walkListeners env gateway.nspace route gateway.listeners [] "" with
    | error e =>
      rw [hw] at h
      exact absurd h (by simp)
    | ok p =>
      obtain ⟨m0, lr⟩ := p
      rw [hw] at h
      obtain ⟨sub, hm0, hs⟩ :=
        walkListeners_ok_matched env gateway.nspace route gateway.listeners [] m0 "" lr hw
      rw [List.nil_append] at hm0
      by_cases hm0z : m0.length = 0
      · by_cases hsn : route.sectionName ≠ none
        · simp [hm0z, hsn] at h
          rw [h.1]
          exact List.nil_sublist _
        · by_cases hlr : lr = ""
          · simp [hm0z, hsn, hlr] at h
            rw [h.1]
            exact List.nil_sublist _
          · simp [hm0z, hsn, hlr] at h
            rw [h.1]
            exact List.nil_sublist _
      · simp [hm0z] at h
        rw [← h.1, hm0]
        exact hs

theorem validateBinding_matched_sublist (env : NsEnv) (gateway : Gateway)
    (route : RouteInfo) (result : BindingResult)
    (h : ValidateBinding env gateway route = .ok result) :
    result.matchedListeners.Sublist (gateway.listeners.map (fun l => l.name)) := by
  unfold ValidateBinding at h
  cases hf : findMatchingListeners env gateway route with
  | error e =>
    rw [hf] at h
    exact absurd h (by simp)
  | ok p =>
    obtain ⟨m, rr⟩ := p
    rw [hf] at h
    by_cases hm : m.length = 0
    · simp [hm] at h
      rw [← h]
      exact List.nil_sublist _
    · simp [hm] at h
      rw [← h]
      exact findMatchingListeners_matched_sublist env gateway route m rr hf

theorem matched_count_eq_indicator (env : NsEnv) (gateway : Gateway) (route : RouteInfo)
    (result : BindingResult) (L : String)
    (hnd : (gateway.listeners.map (fun l => l.name)).Nodup)
    (h : ValidateBinding env gateway route = .ok result) :
    result.matchedListeners.count L =
      (if L ∈ result.matchedListeners then 1 else 0) := by
  have hsub := validateBinding_matched_sublist env gateway route result h
  have hndm : result.matchedListeners.Nodup := hnd.sublist hsub
  by_cases hmem : L ∈ result.matchedListeners
  · rw [if_pos hmem]
    exact List.count_eq_one_of_mem hndm hmem
  · rw [if_neg hmem]
    exact List.count_eq_zero_of_not_mem hmem

/-- Embeds `refMatchesGateway` from the source: the ref names the Gateway and its
resolved namespace (defaulting to the route's) equals the Gateway's.
Note the ref's kind is not examined here. -/
def refMatchesGateway (ref : ParentRef) (gateway : Gateway)
    (routeNamespace : String) : Bool :=
  if ref.name != gateway.name then false
  else
    (match ref.nspace with
     | some n => n
     | none => routeNamespace) == gateway.nspace

/-- The `result[listenerName]++` loop over one accepted binding's matched
listeners (the Go map is total here, initial value 0). -/
def bumpListeners (counts : String → Nat) (names : List String) : String → Nat :=
  names.foldl (fun c n => fun x => if x = n then c x + 1 else c x) counts

/-- The inner parent-ref loop of `countAttachedRoutes` for one route. -/
def countRouteRefsForGateway (env : NsEnv) (gateway : Gateway) (kindStr : String)
    (route : SyncRoute) (counts : String → Nat) : String → Nat :=
  route.parentRefs.foldl (fun c ref =>
    if refMatchesGateway ref gateway route.nspace = false then c
    else
      match ValidateBinding env gateway (buildRouteInfo kindStr route ref) with
      | .error _ => c
      | .ok result =>
        if result.accepted = false then c
        else bumpListeners c result.matchedListeners) counts

/-- The route loop of `countAttachedRoutes` for one route kind. -/
def countRoutesForGateway (env : NsEnv) (gateway : Gateway) (kindStr : String)
    (routes : List SyncRoute) (counts : String → Nat) : String → Nat :=
  routes.foldl (fun c route => countRouteRefsForGateway env gateway kindStr route c) counts

/-- Embeds `countAttachedRoutes` from the source: all listeners start at 0, then the
HTTPRoute list and the GRPCRoute list are counted. -/
def countAttachedRoutes (env : NsEnv) (gateway : Gateway)
    (httpRoutes grpcRoutes : List SyncRoute) : String → Nat :=
  countRoutesForGateway env gateway "GRPCRoute" grpcRoutes
    (countRoutesForGateway env gateway "HTTPRoute" httpRoutes (fun _ => 0))

/-- Whether one (route, parent-ref) pair is attached to listener
`listenerName`: the ref matches the Gateway, the binding validates without
error, is accepted, and its matched listeners contain the listener. -/
def pairAttached (env : NsEnv) (gateway : Gateway) (kindStr : String) (route : SyncRoute)
    (listenerName : String) (ref : ParentRef) : Bool :=
  refMatchesGateway ref gateway route.nspace &&
    (match ValidateBinding env gateway (buildRouteInfo kindStr route ref) with
     | .ok result => result.accepted && decide (listenerName ∈ result.matchedListeners)
     | .error _ => false)

/-- The number of attached (route, parent-ref) pairs for one listener over one
route list. -/
def attachedPairsCount (env : NsEnv) (gateway : Gateway) (kindStr : String)
    (routes : List SyncRoute) (listenerName : String) : Nat :=
  (routes.map (fun route =>
    route.parentRefs.countP (fun ref =>
      pairAttached env gateway kindStr route listenerName ref))).sum

theorem bumpListeners_apply (names : List String) :
    ∀ (counts : String → Nat) (L : String),
    bumpListeners counts names L = counts L + names.count L := by
  induction names with
  | nil =>
    intro counts L
    simp [bumpListeners]
  | cons n ns ih =>
    intro counts L
    unfold bumpListeners at ih ⊢
    rw [List.foldl_cons, ih]
    by_cases hL : L = n <;> simp [hL, List.count_cons, beq_iff_eq] <;> omega

theorem countRouteRefs_apply (env : NsEnv) (gateway : Gateway) (kindStr : String)
    (route : SyncRoute) (L : String)
    (hnd : (gateway.listeners.map (fun l => l.name)).Nodup) :
    ∀ (refs : List ParentRef) (counts : String → Nat),
    (refs.foldl (fun c ref =>
      if refMatchesGateway ref gateway route.nspace = false then c
      else
        match ValidateBinding env gateway (buildRouteInfo kindStr route ref) with
        | .error _ => c
        | .ok result =>
          if result.accepted = false then c
          else bumpListeners c result.matchedListeners) counts) L =
      counts L +
        refs.countP (fun ref => pairAttached env gateway kindStr route L ref) := by
  intro refs
  induction refs with
  | nil =>
    intro counts
    simp
  | cons ref rest ih =>
    intro counts
    rw [List.foldl_cons, List.countP_cons, ih]
    have hstep : (if refMatchesGateway ref gateway route.nspace = false then counts
        else
          match ValidateBinding env gateway (buildRouteInfo kindStr route ref) with
          | .error _ => counts
          | .ok result =>
            if result.accepted = false then counts
            else bumpListeners counts result.matchedListeners) L =
        counts L +
          (if pairAttached env gateway kindStr route L ref = true then 1 else 0) := by
      by_cases hrm : refMatchesGateway ref gateway route.nspace = false
      · simp [pairAttached, hrm]
      · have hrm' : refMatchesGateway ref gateway route.nspace = true := by
          cases h : refMatchesGateway ref gateway route.nspace
          · exact absurd h hrm
          · rfl
        cases hvb : ValidateBinding env gateway (buildRouteInfo kindStr route ref) with
        | error e => simp [pairAttached, hrm, hrm', hvb]
        | ok result =>
          by_cases hacc : result.accepted = false
          · simp [pairAttached, hrm, hrm', hvb, hacc]
          · have hacc' : result.accepted = true := by
              cases h : result.accepted
              · exact absurd h hacc
              · rfl
            have hcount := matched_count_eq_indicator env gateway
              (buildRouteInfo kindStr route ref) result L hnd hvb
            by_cases hmem : L ∈ result.matchedListeners
            · simp [pairAttached, hrm, hrm', hvb, hacc, hacc', hmem,
                bumpListeners_apply, hcount]
            · simp [pairAttached, hrm, hrm', hvb, hacc, hacc', hmem,
                bumpListeners_apply, hcount]
    rw [hstep]
    omega

theorem countRoutesForGateway_apply (env : NsEnv) (gateway : Gateway) (kindStr : String)
    (L : String) (hnd : (gateway.listeners.map (fun l => l.name)).Nodup) :
    ∀ (routes : List SyncRoute) (counts : String → Nat),
    countRoutesForGateway env gateway kindStr routes counts L =
      counts L + attachedPairsCount env gateway kindStr routes L := by
  intro routes
  induction routes with
  | nil =>
    intro counts
    simp [countRoutesForGateway, attachedPairsCount]
  | cons route rest ih =>
    intro counts
    unfold countRoutesForGateway at ih ⊢
    rw [List.foldl_cons, ih]
    have hone : countRouteRefsForGateway env gateway kindStr route counts L =
        counts L +
          route.parentRefs.countP
            (fun ref => pairAttached env gateway kindStr route L ref) := by
      unfold countRouteRefsForGateway
      exact countRouteRefs_apply env gateway kindStr route L hnd route.parentRefs counts
    rw [hone]
    simp [attachedPairsCount]
    omega

/-- Claim C4: for a Gateway whose listener names are unique (a Gateway API
data-model invariant), the attached-routes count computed for a listener name
equals the number of (route, parent-ref) pairs — over the HTTPRoute list and
the GRPCRoute list — whose parent-ref names the Gateway and resolves to its
namespace, whose BindingResult is accepted, and whose matched listeners
contain that listener; in particular a listener matched by no pair counts
0. -/
theorem countAttachedRoutes_eq_accepted_pairs (env : NsEnv) (gateway : Gateway)
    (httpRoutes grpcRoutes : List SyncRoute) (L : String)
    (hnd : (gateway.listeners.map (fun l => l.name)).Nodup) :
    countAttachedRoutes env gateway httpRoutes grpcRoutes L =
      attachedPairsCount env gateway "HTTPRoute" httpRoutes L +
        attachedPairsCount env gateway "GRPCRoute" grpcRoutes L := by
  unfold countAttachedRoutes
  rw [countRoutesForGateway_apply env gateway "GRPCRoute" L hnd grpcRoutes]
  rw [countRoutesForGateway_apply env gateway "HTTPRoute" L hnd httpRoutes]
  omega

def gatewayC4 : Gateway := ⟨"gw", "default", "pingora", [⟨"http", "HTTP", none, none⟩]⟩

def routeC4 : SyncRoute := ⟨"r1", "default", [], [⟨none, none, "gw", none⟩]⟩

/-- Claim C4 witness: one HTTP route attached to the single listener of a
one-listener Gateway (count 1), no gRPC routes. -/
theorem countAttachedRoutes_eq_accepted_pairs_witness :
    countAttachedRoutes (fun _ => none) gatewayC4 [routeC4] [] "http" =
      attachedPairsCount (fun _ => none) gatewayC4 "HTTPRoute" [routeC4] "http" +
        attachedPairsCount (fun _ => none) gatewayC4 "GRPCRoute" [] "http" :=
  countAttachedRoutes_eq_accepted_pairs (fun _ => none) gatewayC4 [routeC4] [] "http"
    (by decide)

end PingoraGateway
